import Mathlib

/-!
# cboring: header codec and string codec

A shallow embedding of the CBOR header-field codec (`ReadMajorFields`,
`WriteMajorFields`) and of the string codec of `strings.go`
(`ReadRawBytes`, `ReadByteString`, `WriteByteString`, `ReadTextString`,
`WriteTextString`), with theorems about their wire format.

Conventions of the embedding:

* a Go `byte` is a `Fin 256`; `uint64` values are `Nat` (with `% 2^64` at the
  conversions), Go `int`/`int64` values are `Int`;
* an `io.Reader` is the list of bytes it still has to deliver (the state of a
  `bytes.Buffer`); every read returns the reader that is left;
* an `io.Writer` is a state type together with its `Write` method, which
  returns the count, the error and the new state, and with its `WriteString`
  method when it has one (`io.StringWriter`);
* Go's `(value, err)` results are kept as pairs where the source can return
  both; `nil` and the empty slice are both `[]`.
-/

namespace Cboring

/-! ## Data model -/

/-- Go's `byte`. -/
abbrev Byte := Fin 256

/-- The conversion `byte(n)`: truncation to 8 bits. -/
def byte (n : Nat) : Byte := ⟨n % 256, Nat.mod_lt n (by decide)⟩

/-- The conversion `uint64(n)` of a non-negative value: truncation to 64 bits. -/
def uint64 (n : Nat) : Nat := n % 2 ^ 64

/-- The conversion `int64(l)` of a `uint64`: two's complement reinterpretation. -/
def int64 (l : Nat) : Int :=
  if l % 2 ^ 64 < 2 ^ 63 then ((l % 2 ^ 64 : Nat) : Int) else ((l % 2 ^ 64 : Nat) : Int) - 2 ^ 64

/-- Modelled from the spec: the `MajorType` declaration (major.go is not among
the sources). The tests shift it as a `byte`; its values are the 3-bit tags
0..7. -/
abbrev MajorType := Nat

/-- Modelled from the spec: major type 0. -/
def UInt : MajorType := 0
/-- Modelled from the spec: major type 1. -/
def NegInt : MajorType := 1
/-- Modelled from the spec: major type 2. -/
def ByteString : MajorType := 2
/-- Modelled from the spec: major type 3. -/
def TextString : MajorType := 3
/-- Modelled from the spec: major type 4. -/
def Array : MajorType := 4

/-- `math.MaxInt32`. -/
def MaxInt32 : Nat := 2147483647

/-- The errors the codec can return. `EOF` and `ErrUnexpectedEOF` are the two
errors of package `io` for a stream that ends early; `LengthTooLarge` is the
`fmt.Errorf` of `ReadRawBytes`, `IncompleteWrite` the `fmt.Errorf` of the
writers; `Sink` is an error of the caller's writer. -/
inductive Error where
  | EOF
  | ErrUnexpectedEOF
  | UnsupportedEncoding (ai : Nat)
  | UnexpectedMajorType (got expected : MajorType)
  | LengthTooLarge (l : Nat)
  | IncompleteWrite (n expected : Int)
  | Sink (code : Nat)
  deriving DecidableEq, Repr

/-- The spec's error kind `TruncatedInput`: the stream ended before the expected
bytes were available. -/
def Error.TruncatedInput : Error → Bool
  | .EOF => true
  | .ErrUnexpectedEOF => true
  | _ => false

/-- An `io.Reader` over in-memory data: the bytes not yet read. -/
abbrev Reader := List Byte

/-- An `io.Writer`: `Write(p)` returns `(n, err)` and the writer's new state.
A writer that is also an `io.StringWriter` has a `WriteString(s)` method of the
same shape; `none` stands for a writer without that method. -/
structure Writer (σ : Type) where
  Write : σ → List Byte → (Int × Option Error) × σ
  WriteString : Option (σ → List Byte → (Int × Option Error) × σ)

/-- The writer of a `bytes.Buffer`: `Write(p)` appends all of `p` and never
fails; `WriteString(s)` does the same with the bytes of `s`. -/
def bytesBuffer : Writer (List Byte) :=
  ⟨fun s p => (((p.length : Int), none), s ++ p),
    some (fun s p => (((p.length : Int), none), s ++ p))⟩

/-! ## Package `io` -/

/-- `io.ReadFull(r, buf)` with `len(buf) = n`, `buf` zeroed beforehand: returns
the contents of `buf` after the call, the count, the error, and the reader
left. With fewer than `n` bytes available everything available is consumed and
the error is `EOF` (nothing read) or `ErrUnexpectedEOF`. -/
def ioReadFull (r : Reader) (n : Nat) : (List Byte × Nat × Option Error) × Reader :=
  if n ≤ r.length then ((r.take n, n, none), r.drop n)
  else
    ((r ++ List.replicate (n - r.length) 0, r.length,
      some (if r.length = 0 then Error.EOF else Error.ErrUnexpectedEOF)), [])

/-- `io.CopyN(dst, r, n)` into a `bytes.Buffer` holding `dst`: returns the
buffer's contents after the call, the count written, the error, and the reader
left. -/
def ioCopyN (dst : List Byte) (r : Reader) (n : Int) :
    (List Byte × Int × Option Error) × Reader :=
  let chunk := r.take n.toNat
  let written : Int := (chunk.length : Int)
  if written = n then ((dst ++ chunk, n, none), r.drop n.toNat)
  else if written < n then ((dst ++ chunk, written, some Error.EOF), r.drop n.toNat)
  else ((dst ++ chunk, written, none), r.drop n.toNat)

/-- `io.WriteString(w, s)`: the writer's own `WriteString(s)` when it has that
method, `w.Write([]byte(s))` otherwise; one call in either case. -/
def ioWriteString {σ : Type} (W : Writer σ) (w : σ) (s : List Byte) :
    (Int × Option Error) × σ :=
  match W.WriteString with
  | some writeString => writeString w s
  | none => W.Write w s

/-! ## Header codec -/

/-- Modelled from the spec: the big-endian decoding of the extension bytes
(major.go is not among the sources): the value of a byte sequence read as a
big-endian unsigned integer, by shifting. -/
def bigEndianUint (bs : List Byte) : Nat :=
  bs.foldl (fun acc b => (acc <<< 8) ||| b.val) 0

/-- Modelled from the spec: the big-endian encoding of the extension bytes
(major.go is not among the sources): the `k` low-order bytes of `n`, most
significant first. -/
def bigEndianBytes : Nat → Nat → List Byte
  | 0, _ => []
  | k + 1, n => byte (n >>> (8 * k)) :: bigEndianBytes k n

/-- Modelled from the spec: the extension read of `ReadMajorFields` (major.go
is not among the sources): read `k` more bytes, big-endian. -/
def readArgument (m : MajorType) (k : Nat) (r : Reader) :
    Except Error (MajorType × Nat) × Reader :=
  match ioReadFull r k with
  | ((_, _, some e), r1) => (.error e, r1)
  | ((buf, _, none), r1) => (.ok (m, bigEndianUint buf), r1)

/-- Modelled from the spec: `ReadMajorFields` (major.go is not among the
sources). Reads one byte `b`; the major type is `b >> 5`, the additional
information `ai = b & 0x1F`. `ai <= 23` is the argument itself; 24, 25, 26, 27
announce 1, 2, 4, 8 further big-endian bytes; 28..31 are unsupported. A stream
that ends early fails with the stream's error. Either a complete field or an
error is returned, never both. -/
def ReadMajorFields (r : Reader) : Except Error (MajorType × Nat) × Reader :=
  match ioReadFull r 1 with
  | ((_, _, some e), r1) => (.error e, r1)
  | ((buf, _, none), r1) =>
    let b : Nat := (buf.headD 0).val
    let m : MajorType := b >>> 5
    let ai : Nat := b &&& 0x1F
    if ai ≤ 23 then (.ok (m, ai), r1)
    else if ai = 24 then readArgument m 1 r1
    else if ai = 25 then readArgument m 2 r1
    else if ai = 26 then readArgument m 4 r1
    else if ai = 27 then readArgument m 8 r1
    else (.error (Error.UnsupportedEncoding ai), r1)

/-- Modelled from the spec: the bytes `WriteMajorFields` emits (major.go is not
among the sources): the smallest width that can represent the argument. -/
def majorFieldBytes (m : MajorType) (n : Nat) : List Byte :=
  if n ≤ 23 then [byte ((m <<< 5) ||| n)]
  else if n ≤ 0xFF then byte ((m <<< 5) ||| 24) :: bigEndianBytes 1 n
  else if n ≤ 0xFFFF then byte ((m <<< 5) ||| 25) :: bigEndianBytes 2 n
  else if n ≤ 0xFFFFFFFF then byte ((m <<< 5) ||| 26) :: bigEndianBytes 4 n
  else byte ((m <<< 5) ||| 27) :: bigEndianBytes 8 n

/-- Modelled from the spec: `WriteMajorFields` (major.go is not among the
sources). Emits the header bytes; a write error or a short write is fatal, no
retry. -/
def WriteMajorFields {σ : Type} (W : Writer σ) (m : MajorType) (n : Nat) (w : σ) :
    Option Error × σ :=
  let buf := majorFieldBytes m n
  match W.Write w buf with
  | ((_, some e), w1) => (some e, w1)
  | ((k, none), w1) =>
    if k ≠ (buf.length : Int) then (some (Error.IncompleteWrite k buf.length), w1)
    else (none, w1)

/-- Modelled from the spec: `ReadLength(majorType)`, the common body of
`ReadByteStringLen` and `ReadTextStringLen` (major.go is not among the
sources): reads a header field and checks its major type. -/
def ReadLength (expected : MajorType) (r : Reader) : Except Error Nat × Reader :=
  match ReadMajorFields r with
  | (.error e, r1) => (.error e, r1)
  | (.ok (m, n), r1) =>
    if m = expected then (.ok n, r1)
    else (.error (Error.UnexpectedMajorType m expected), r1)

/-- Modelled from the spec: `ReadByteStringLen` (major.go is not among the
sources). -/
def ReadByteStringLen (r : Reader) : Except Error Nat × Reader :=
  ReadLength ByteString r

/-- Modelled from the spec: `ReadTextStringLen` (major.go is not among the
sources). -/
def ReadTextStringLen (r : Reader) : Except Error Nat × Reader :=
  ReadLength TextString r

/-- Modelled from the spec: `WriteByteStringLen` (major.go is not among the
sources): the header field of a byte string of `n` bytes. -/
def WriteByteStringLen {σ : Type} (W : Writer σ) (n : Nat) (w : σ) : Option Error × σ :=
  WriteMajorFields W ByteString n w

/-- Modelled from the spec: `WriteTextStringLen` (major.go is not among the
sources): the header field of a text string of `n` bytes. -/
def WriteTextStringLen {σ : Type} (W : Writer σ) (n : Nat) (w : σ) : Option Error × σ :=
  WriteMajorFields W TextString n w

/-! ## String codec (strings.go) -/

/-- `ReadRawBytes(l, r)`: returns `(data, err)` and the reader left. -/
def ReadRawBytes (l : Nat) (r : Reader) : (List Byte × Option Error) × Reader :=
  if l > MaxInt32 then (([], some (Error.LengthTooLarge l)), r)
  else if l ≤ 1024 * 1024 then
    match ioReadFull r l with
    | ((data, _, err), r1) => ((data, err), r1)
  else
    match ioCopyN [] r (int64 l) with
    | ((buf, _, none), r1) => ((buf, none), r1)
    | ((_, _, some e), r1) => (([], some e), r1)

/-- `ReadByteString(r)`: returns `(data, err)` and the reader left. -/
def ReadByteString (r : Reader) : (List Byte × Option Error) × Reader :=
  match ReadByteStringLen r with
  | (.error e, r1) => (([], some e), r1)
  | (.ok n, r1) => ReadRawBytes n r1

/-- `WriteByteString(data, w)`: returns the error and the writer's new state. -/
def WriteByteString {σ : Type} (W : Writer σ) (data : List Byte) (w : σ) : Option Error × σ :=
  match WriteByteStringLen W (uint64 data.length) w with
  | (some e, w1) => (some e, w1)
  | (none, w1) =>
    match W.Write w1 data with
    | ((_, some e), w2) => (some e, w2)
    | ((n, none), w2) =>
      if n ≠ (data.length : Int) then (some (Error.IncompleteWrite n data.length), w2)
      else (none, w2)

/-- `ReadTextString(r)`: returns `(data, err)` and the reader left. A Go string
is its byte sequence; `string(rdata)` keeps the bytes as they are. -/
def ReadTextString (r : Reader) : (List Byte × Option Error) × Reader :=
  match ReadTextStringLen r with
  | (.error e, r1) => (([], some e), r1)
  | (.ok n, r1) =>
    match ReadRawBytes n r1 with
    | ((_, some rerr), r2) => (([], some rerr), r2)
    | ((rdata, none), r2) => ((rdata, none), r2)

/-- `WriteTextString(data, w)`: returns the error and the writer's new state.
The payload goes through `io.WriteString`. -/
def WriteTextString {σ : Type} (W : Writer σ) (data : List Byte) (w : σ) : Option Error × σ :=
  match WriteTextStringLen W (uint64 data.length) w with
  | (some e, w1) => (some e, w1)
  | (none, w1) =>
    match ioWriteString W w1 data with
    | ((_, some e), w2) => (some e, w2)
    | ((n, none), w2) =>
      if n ≠ (data.length : Int) then (some (Error.IncompleteWrite n data.length), w2)
      else (none, w2)


/-! ## The two allocation paths of `ReadRawBytes` -/

/-- The first branch of `ReadRawBytes` (taken when `l <= 1024*1024`):
`data = make([]byte, l)` filled by one `io.ReadFull`. -/
def readPresized (l : Nat) (r : Reader) : (List Byte × Option Error) × Reader :=
  match ioReadFull r l with
  | ((data, _, err), r1) => ((data, err), r1)

/-- The second branch of `ReadRawBytes` (taken when `l > 1024*1024`):
`io.CopyN` of `l` bytes into a fresh `bytes.Buffer`, whose bytes are handed out
on success only. -/
def readGrowable (l : Nat) (r : Reader) : (List Byte × Option Error) × Reader :=
  match ioCopyN [] r (int64 l) with
  | ((buf, _, none), r1) => ((buf, none), r1)
  | ((_, _, some e), r1) => (([], some e), r1)

/-- The body of `ReadRawBytes` with the threshold `1024*1024` replaced by `t`. -/
def ReadRawBytesAt (t l : Nat) (r : Reader) : (List Byte × Option Error) × Reader :=
  if l > MaxInt32 then (([], some (Error.LengthTooLarge l)), r)
  else if l ≤ t then readPresized l r
  else readGrowable l r

/-! ## Sequences of calls and test sinks -/

/-- Writing the byte strings `ds` in order with `WriteByteString` into one
writer, stopping at the first error. -/
def writeByteStrings {σ : Type} (W : Writer σ) : List (List Byte) → σ → Option Error × σ
  | [], w => (none, w)
  | d :: ds, w =>
    match WriteByteString W d w with
    | (some e, w1) => (some e, w1)
    | (none, w1) => writeByteStrings W ds w1

/-- Calling `ReadByteString` `k` times in a row on one reader: the `(data, err)`
results in order, and the reader left. -/
def readByteStrings : Nat → Reader → List (List Byte × Option Error) × Reader
  | 0, r => ([], r)
  | k + 1, r =>
    match ReadByteString r with
    | (res, r1) =>
      match readByteStrings k r1 with
      | (more, r2) => (res :: more, r2)

/-- A writer wrapped so that its state also lists, in order, the argument of
every `Write` call and of every `WriteString` call made on it; it has a
`WriteString` method exactly when the wrapped writer has one. -/
def recording {σ : Type} (W : Writer σ) : Writer (σ × List (List Byte)) :=
  ⟨fun s p => ((W.Write s.1 p).1, ((W.Write s.1 p).2, s.2 ++ [p])),
    W.WriteString.map
      (fun writeString s p => ((writeString s.1 p).1, ((writeString s.1 p).2, s.2 ++ [p])))⟩

/-- An in-memory sink with room for `cap` bytes in all and no `WriteString`
method: `Write(p)` stores what still fits and reports that count, without an
error of its own. -/
def limitedSink (cap : Nat) : Writer (List Byte) :=
  ⟨fun s p => (((min p.length (cap - s.length) : Nat), none),
    s ++ p.take (min p.length (cap - s.length))), none⟩

/-- An in-memory sink with room for `cap` bytes in all and no `WriteString`
method, whose `Write(p)` reports the error `Sink 1` together with the count
when `p` does not fit. -/
def failingSink (cap : Nat) : Writer (List Byte) :=
  ⟨fun s p =>
    if p.length ≤ cap - s.length then (((p.length : Nat), none), s ++ p)
    else (((cap - s.length : Nat), some (Error.Sink 1)), s ++ p.take (cap - s.length)),
    none⟩

/-- An in-memory sink whose two methods differ: `Write(p)` stores all of `p`,
`WriteString(s)` stores and reports at most `cap` bytes of `s`, without an
error of its own. -/
def shortStringSink (cap : Nat) : Writer (List Byte) :=
  ⟨fun s p => (((p.length : Nat), none), s ++ p),
    some (fun s p => (((min p.length cap : Nat), none), s ++ p.take cap))⟩

/-- An in-memory sink that stores what it is given, except that its `Write`
refuses, with the error `Sink 2`, every `p` that starts with a text-string
header byte (major type 3). It has no `WriteString` method. -/
def noTextHeaderSink : Writer (List Byte) :=
  ⟨fun s p =>
    if (p.headD 0).val >>> 5 = TextString then (((0 : Nat), some (Error.Sink 2)), s)
    else (((p.length : Nat), none), s ++ p),
    none⟩

/-! ## Arithmetic of the header byte -/

theorem shl_or_eq_add (a b k : Nat) (h : b < 2 ^ k) : (a <<< k) ||| b = a * 2 ^ k + b := by
  rw [Nat.shiftLeft_eq, Nat.mul_comm a (2 ^ k), ← Nat.mul_add_lt_is_or h a]

theorem and_0x1F (x : Nat) : x &&& 0x1F = x % 32 :=
  Nat.and_pow_two_sub_one_eq_mod x 5

theorem shr_5 (x : Nat) : x >>> 5 = x / 32 :=
  Nat.shiftRight_eq_div_pow x 5

theorem byte_val (n : Nat) : (byte n).val = n % 256 := rfl

theorem headByte_val (m ai : Nat) (hm : m ≤ 7) (hai : ai < 32) :
    (byte ((m <<< 5) ||| ai)).val = m * 32 + ai := by
  rw [byte_val, shl_or_eq_add m ai 5 (by simpa using hai)]
  omega

/-! ## Big-endian integers -/

theorem bigEndianBytes_length (k n : Nat) : (bigEndianBytes k n).length = k := by
  induction k with
  | zero => rfl
  | succ k ih => simp [bigEndianBytes, ih]

theorem foldl_bigEndian_step (acc : Nat) (b : Byte) : (acc <<< 8) ||| b.val = acc * 256 + b.val := by
  rw [shl_or_eq_add acc b.val 8 (by have := b.isLt; simp)]
  norm_num

theorem foldl_bigEndian (bs : List Byte) (acc : Nat) :
    bs.foldl (fun acc b => (acc <<< 8) ||| b.val) acc
      = acc * 256 ^ bs.length + bigEndianUint bs := by
  induction bs generalizing acc with
  | nil => simp [bigEndianUint]
  | cons b bs ih =>
    unfold bigEndianUint
    simp only [List.foldl_cons, List.length_cons]
    rw [ih, ih (0 <<< 8 ||| b.val), foldl_bigEndian_step, foldl_bigEndian_step]
    ring

theorem bigEndianUint_cons (b : Byte) (bs : List Byte) :
    bigEndianUint (b :: bs) = b.val * 256 ^ bs.length + bigEndianUint bs := by
  unfold bigEndianUint
  simp only [List.foldl_cons]
  rw [foldl_bigEndian, foldl_bigEndian_step]
  simp [bigEndianUint]

theorem bigEndianUint_lt (bs : List Byte) : bigEndianUint bs < 256 ^ bs.length := by
  induction bs with
  | nil => simp [bigEndianUint]
  | cons b bs ih =>
    rw [bigEndianUint_cons, List.length_cons, pow_succ]
    have hb := b.isLt
    nlinarith [ih, hb]

theorem bigEndianUint_bigEndianBytes (k n : Nat) :
    bigEndianUint (bigEndianBytes k n) = n % 256 ^ k := by
  induction k with
  | zero => simp [bigEndianBytes, bigEndianUint, Nat.mod_one]
  | succ k ih =>
    rw [bigEndianBytes, bigEndianUint_cons, ih, bigEndianBytes_length, byte_val,
      Nat.shiftRight_eq_div_pow, Nat.mod_pow_succ, pow_mul]
    norm_num
    ring


/-! ## Reading from an in-memory stream -/

theorem ioReadFull_of_le (r : Reader) (n : Nat) (h : n ≤ r.length) :
    ioReadFull r n = ((r.take n, n, none), r.drop n) := by
  simp [ioReadFull, h]

theorem ioReadFull_of_lt (r : Reader) (n : Nat) (h : r.length < n) :
    ioReadFull r n = ((r ++ List.replicate (n - r.length) 0, r.length,
      some (if r.length = 0 then Error.EOF else Error.ErrUnexpectedEOF)), []) := by
  simp [ioReadFull, Nat.not_le.mpr h]

theorem ioReadFull_append (bs rest : List Byte) :
    ioReadFull (bs ++ rest) bs.length = ((bs, bs.length, none), rest) := by
  rw [ioReadFull_of_le _ _ (by simp)]
  simp

theorem readArgument_of_le (m : MajorType) (k : Nat) (r : Reader) (h : k ≤ r.length) :
    readArgument m k r = (.ok (m, bigEndianUint (r.take k)), r.drop k) := by
  simp [readArgument, ioReadFull_of_le r k h]

theorem readArgument_of_lt (m : MajorType) (k : Nat) (r : Reader) (h : r.length < k) :
    readArgument m k r
      = (.error (if r.length = 0 then Error.EOF else Error.ErrUnexpectedEOF), []) := by
  simp [readArgument, ioReadFull_of_lt r k h]

theorem readArgument_append (m : MajorType) (bs rest : List Byte) :
    readArgument m bs.length (bs ++ rest) = (.ok (m, bigEndianUint bs), rest) := by
  simp [readArgument, ioReadFull_append]

theorem ReadMajorFields_nil : ReadMajorFields [] = (.error Error.EOF, []) := by
  simp [ReadMajorFields, ioReadFull]

theorem ReadMajorFields_cons (b : Byte) (rest : Reader) :
    ReadMajorFields (b :: rest) =
      if b.val % 32 ≤ 23 then (.ok (b.val / 32, b.val % 32), rest)
      else if b.val % 32 = 24 then readArgument (b.val / 32) 1 rest
      else if b.val % 32 = 25 then readArgument (b.val / 32) 2 rest
      else if b.val % 32 = 26 then readArgument (b.val / 32) 4 rest
      else if b.val % 32 = 27 then readArgument (b.val / 32) 8 rest
      else (.error (Error.UnsupportedEncoding (b.val % 32)), rest) := by
  simp [ReadMajorFields, ioReadFull, and_0x1F, shr_5]

/-- Reading back a header byte followed by its big-endian extension. -/
theorem ReadMajorFields_header (m ai k n : Nat) (rest : List Byte) (hm : m ≤ 7)
    (hk : (ai = 24 ∧ k = 1) ∨ (ai = 25 ∧ k = 2) ∨ (ai = 26 ∧ k = 4) ∨ (ai = 27 ∧ k = 8))
    (hn : n < 256 ^ k) :
    ReadMajorFields ((byte ((m <<< 5) ||| ai) :: bigEndianBytes k n) ++ rest)
      = (.ok (m, n), rest) := by
  have hai : ai < 32 := by omega
  have hv := headByte_val m ai hm hai
  have hdiv : (m * 32 + ai) / 32 = m := by omega
  have hmod : (m * 32 + ai) % 32 = ai := by omega
  have hread := readArgument_append m (bigEndianBytes k n) rest
  rw [bigEndianBytes_length, bigEndianUint_bigEndianBytes, Nat.mod_eq_of_lt hn] at hread
  rw [List.cons_append, ReadMajorFields_cons, hv, hdiv, hmod]
  rcases hk with ⟨h1, h2⟩ | ⟨h1, h2⟩ | ⟨h1, h2⟩ | ⟨h1, h2⟩ <;> subst h1 <;> subst h2 <;>
    simpa using hread

theorem ReadMajorFields_majorFieldBytes (m a : Nat) (rest : List Byte) (hm : m ≤ 7)
    (ha : a < 2 ^ 64) :
    ReadMajorFields (majorFieldBytes m a ++ rest) = (.ok (m, a), rest) := by
  unfold majorFieldBytes
  split_ifs with h1 h2 h3 h4
  · have hv := headByte_val m a hm (by omega)
    have hdiv : (m * 32 + a) / 32 = m := by omega
    have hmod : (m * 32 + a) % 32 = a := by omega
    rw [List.singleton_append, ReadMajorFields_cons, hv, hdiv, hmod, if_pos h1]
  · exact ReadMajorFields_header m 24 1 a rest hm (by simp) (by norm_num; omega)
  · exact ReadMajorFields_header m 25 2 a rest hm (by simp) (by norm_num; omega)
  · exact ReadMajorFields_header m 26 4 a rest hm (by simp) (by norm_num; omega)
  · exact ReadMajorFields_header m 27 8 a rest hm (by simp) (by norm_num; omega)

theorem WriteMajorFields_bytesBuffer (m n : Nat) (w : List Byte) :
    WriteMajorFields bytesBuffer m n w = (none, w ++ majorFieldBytes m n) := by
  simp [WriteMajorFields, bytesBuffer]

/-! ## Header codec: theorems -/

/-- C1: for every major type `m` in 0..7 and every uint64 argument `a`,
`WriteMajorFields(m, a)` into an empty buffer succeeds, and `ReadMajorFields`
on the bytes it wrote, followed by any further bytes `rest`, returns `(m, a)`
without error and leaves exactly `rest` unread. -/
theorem header_round_trip (m a : Nat) (rest : List Byte) (hm : m ≤ 7) (ha : a < 2 ^ 64) :
    (WriteMajorFields bytesBuffer m a []).1 = none ∧
    ReadMajorFields ((WriteMajorFields bytesBuffer m a []).2 ++ rest) = (.ok (m, a), rest) := by
  rw [WriteMajorFields_bytesBuffer]
  exact ⟨rfl, by simpa using ReadMajorFields_majorFieldBytes m a rest hm ha⟩

theorem header_round_trip_witness :
    (2 : Nat) ≤ 7 ∧ (70000 : Nat) < 2 ^ 64 ∧
    (WriteMajorFields bytesBuffer 2 70000 []).1 = none ∧
    ReadMajorFields ((WriteMajorFields bytesBuffer 2 70000 []).2 ++ [9, 8])
      = (.ok (2, 70000), [9, 8]) :=
  ⟨by decide, by decide, header_round_trip 2 70000 [9, 8] (by decide) (by decide)⟩


theorem majorFieldBytes_length (m a : Nat) :
    (majorFieldBytes m a).length =
      if a ≤ 23 then 1 else if a ≤ 0xFF then 2 else if a ≤ 0xFFFF then 3
      else if a ≤ 0xFFFFFFFF then 5 else 9 := by
  unfold majorFieldBytes
  split_ifs <;> simp [bigEndianBytes_length]

theorem bigEndianUint_eq_ofDigits (bs : List Byte) :
    bigEndianUint bs = Nat.ofDigits 256 (bs.reverse.map Fin.val) := by
  induction bs with
  | nil => simp [bigEndianUint]
  | cons b bs ih =>
    rw [bigEndianUint_cons, ih, List.reverse_cons, List.map_append, Nat.ofDigits_append]
    simp [Nat.ofDigits_singleton, Nat.mul_comm, Nat.add_comm]

theorem readArgument_eq_ok (m0 k : Nat) (r : Reader) (m a : Nat) (r1 : Reader)
    (h : readArgument m0 k r = (.ok (m, a), r1)) :
    k ≤ r.length ∧ m = m0 ∧ a = bigEndianUint (r.take k) ∧ r1 = r.drop k := by
  by_cases hk : k ≤ r.length
  · rw [readArgument_of_le m0 k r hk] at h
    simp only [Prod.mk.injEq, Except.ok.injEq] at h
    obtain ⟨⟨h1, h2⟩, h3⟩ := h
    exact ⟨hk, h1.symm, h2.symm, h3.symm⟩
  · rw [readArgument_of_lt m0 k r (by omega)] at h
    simp at h

/-- C3: the bytes `WriteMajorFields(m, a)` writes: one byte `(m<<5)|a` for
`a <= 23`; otherwise the byte `(m<<5)|24`, `|25`, `|26`, `|27` followed by `a`
in 1, 2, 4, 8 big-endian bytes, for the smallest of the ranges `<= 0xFF`,
`<= 0xFFFF`, `<= 0xFFFFFFFF`, uint64 that holds `a`; and the five literal
vectors of the tests. -/
theorem WriteMajorFields_exact_output (m a : Nat) (w : List Byte) :
    (WriteMajorFields bytesBuffer m a w).1 = none ∧
    (a ≤ 23 → (WriteMajorFields bytesBuffer m a w).2 = w ++ [byte ((m <<< 5) ||| a)]) ∧
    (23 < a → a ≤ 0xFF →
      (WriteMajorFields bytesBuffer m a w).2 = w ++ [byte ((m <<< 5) ||| 24), byte a]) ∧
    (0xFF < a → a ≤ 0xFFFF →
      (WriteMajorFields bytesBuffer m a w).2
        = w ++ [byte ((m <<< 5) ||| 25), byte (a >>> 8), byte a]) ∧
    (0xFFFF < a → a ≤ 0xFFFFFFFF →
      (WriteMajorFields bytesBuffer m a w).2
        = w ++ [byte ((m <<< 5) ||| 26), byte (a >>> 24), byte (a >>> 16), byte (a >>> 8),
            byte a]) ∧
    (0xFFFFFFFF < a →
      (WriteMajorFields bytesBuffer m a w).2
        = w ++ [byte ((m <<< 5) ||| 27), byte (a >>> 56), byte (a >>> 48), byte (a >>> 40),
            byte (a >>> 32), byte (a >>> 24), byte (a >>> 16), byte (a >>> 8), byte a]) ∧
    (WriteMajorFields bytesBuffer UInt 100 []).2 = [0x18, 0x64] ∧
    (WriteMajorFields bytesBuffer NegInt 99 []).2 = [0x38, 0x63] ∧
    (WriteMajorFields bytesBuffer ByteString 64 []).2 = [0x58, 0x40] ∧
    (WriteMajorFields bytesBuffer TextString 32 []).2 = [0x78, 0x20] ∧
    (WriteMajorFields bytesBuffer Array 25 []).2 = [0x98, 0x19] := by
  simp only [WriteMajorFields_bytesBuffer]
  refine ⟨trivial, ?_, ?_, ?_, ?_, ?_, by decide, by decide, by decide, by decide, by decide⟩
  · intro h
    simp [majorFieldBytes, h]
  · intro h1 h2
    have : ¬ a ≤ 23 := by omega
    simp [majorFieldBytes, this, h2, bigEndianBytes]
  · intro h1 h2
    have : ¬ a ≤ 23 := by omega
    have : ¬ a ≤ 0xFF := by omega
    simp [majorFieldBytes, *, bigEndianBytes]
  · intro h1 h2
    have : ¬ a ≤ 23 := by omega
    have : ¬ a ≤ 0xFF := by omega
    have : ¬ a ≤ 0xFFFF := by omega
    simp [majorFieldBytes, *, bigEndianBytes]
  · intro h1
    have : ¬ a ≤ 23 := by omega
    have : ¬ a ≤ 0xFF := by omega
    have : ¬ a ≤ 0xFFFF := by omega
    have : ¬ a ≤ 0xFFFFFFFF := by omega
    simp [majorFieldBytes, *, bigEndianBytes]


theorem WriteMajorFields_exact_output_witness :
    ((0xFF : Nat) < 1000 ∧ (1000 : Nat) ≤ 0xFFFF) ∧
    (WriteMajorFields bytesBuffer 2 1000 [7]).2
      = ([7] : List Byte) ++ [byte ((2 <<< 5) ||| 25), byte (1000 >>> 8), byte 1000] :=
  ⟨by decide, (WriteMajorFields_exact_output 2 1000 [7]).2.2.2.1 (by decide) (by decide)⟩

/-- What a successful `ReadMajorFields` tells about the stream: the field is
in range and the canonical header is no longer than what was consumed. -/
theorem ReadMajorFields_ok_bounds (bs : List Byte) (m a : Nat) (r1 : Reader)
    (h : ReadMajorFields bs = (.ok (m, a), r1)) :
    m ≤ 7 ∧ a < 2 ^ 64 ∧ (majorFieldBytes m a).length + r1.length ≤ bs.length := by
  cases bs with
  | nil => rw [ReadMajorFields_nil] at h; simp at h
  | cons b rest =>
    have hb := b.isLt
    have hm : b.val / 32 ≤ 7 := by omega
    rw [ReadMajorFields_cons] at h
    rw [majorFieldBytes_length]
    split_ifs at h with h0 h1 h2 h3 h4
    · simp only [Prod.mk.injEq, Except.ok.injEq] at h
      obtain ⟨⟨hm1, ha1⟩, hr⟩ := h
      subst hm1 ha1 hr
      refine ⟨hm, by omega, ?_⟩
      simp only [h0, if_true, List.length_cons]
      omega
    · obtain ⟨hk, hm1, ha1, hr⟩ := readArgument_eq_ok _ _ _ _ _ _ h
      have hlt := bigEndianUint_lt (rest.take 1)
      rw [List.length_take, Nat.min_eq_left hk, ← ha1] at hlt
      subst hm1 hr
      refine ⟨hm, by omega, ?_⟩
      simp only [List.length_drop, List.length_cons]
      split_ifs <;> omega
    · obtain ⟨hk, hm1, ha1, hr⟩ := readArgument_eq_ok _ _ _ _ _ _ h
      have hlt := bigEndianUint_lt (rest.take 2)
      rw [List.length_take, Nat.min_eq_left hk, ← ha1] at hlt
      subst hm1 hr
      refine ⟨hm, by omega, ?_⟩
      simp only [List.length_drop, List.length_cons]
      split_ifs <;> omega
    · obtain ⟨hk, hm1, ha1, hr⟩ := readArgument_eq_ok _ _ _ _ _ _ h
      have hlt := bigEndianUint_lt (rest.take 4)
      rw [List.length_take, Nat.min_eq_left hk, ← ha1] at hlt
      subst hm1 hr
      refine ⟨hm, by omega, ?_⟩
      simp only [List.length_drop, List.length_cons]
      split_ifs <;> omega
    · obtain ⟨hk, hm1, ha1, hr⟩ := readArgument_eq_ok _ _ _ _ _ _ h
      have hlt := bigEndianUint_lt (rest.take 8)
      rw [List.length_take, Nat.min_eq_left hk, ← ha1] at hlt
      subst hm1 hr
      refine ⟨hm, by omega, ?_⟩
      simp only [List.length_drop, List.length_cons]
      split_ifs <;> omega
    · simp at h

/-- C4: the encoding `WriteMajorFields(m, a)` emits is the shortest one that
decodes to `(m, a)`: whenever `ReadMajorFields` decodes a byte sequence `bs` to
`(m, a)` consuming all of `bs`, the written bytes decode to `(m, a)` as well
and are at most as long as `bs`. -/
theorem WriteMajorFields_minimal (m a : Nat) (bs : List Byte)
    (h : ReadMajorFields bs = (.ok (m, a), [])) :
    (WriteMajorFields bytesBuffer m a []).1 = none ∧
    ReadMajorFields (WriteMajorFields bytesBuffer m a []).2 = (.ok (m, a), []) ∧
    (WriteMajorFields bytesBuffer m a []).2.length ≤ bs.length := by
  obtain ⟨hm, ha, hlen⟩ := ReadMajorFields_ok_bounds bs m a [] h
  rw [WriteMajorFields_bytesBuffer]
  refine ⟨rfl, ?_, by simpa using hlen⟩
  simpa using ReadMajorFields_majorFieldBytes m a [] hm ha

theorem WriteMajorFields_minimal_witness :
    ReadMajorFields [0x19, 0x00, 0x05] = (.ok (0, 5), []) ∧
    (WriteMajorFields bytesBuffer 0 5 []).1 = none ∧
    ReadMajorFields (WriteMajorFields bytesBuffer 0 5 []).2 = (.ok (0, 5), []) ∧
    (WriteMajorFields bytesBuffer 0 5 []).2.length ≤ [(0x19 : Byte), 0x00, 0x05].length :=
  ⟨by rfl, WriteMajorFields_minimal 0 5 [0x19, 0x00, 0x05] (by rfl)⟩

/-- C5: when the first byte `b` of the stream has `ai = b & 0x1F <= 23`,
`ReadMajorFields` succeeds with major type `b >> 5` and argument `ai`, and
consumes that one byte only: the rest of the stream is left unread. -/
theorem ReadMajorFields_small (b : Byte) (rest : List Byte) (h : b.val &&& 0x1F ≤ 23) :
    ReadMajorFields (b :: rest) = (.ok (b.val >>> 5, b.val &&& 0x1F), rest) := by
  rw [and_0x1F] at h
  rw [ReadMajorFields_cons, if_pos h, and_0x1F, shr_5]

theorem ReadMajorFields_small_witness :
    (0x37 : Byte).val &&& 0x1F ≤ 23 ∧
    ReadMajorFields ((0x37 : Byte) :: [1, 2])
      = (.ok ((0x37 : Byte).val >>> 5, (0x37 : Byte).val &&& 0x1F), [1, 2]) :=
  ⟨by decide, ReadMajorFields_small 0x37 [1, 2] (by decide)⟩


/-- C6: when the first byte `b` has `ai = b & 0x1F` equal to 24, 25, 26 or 27
and the stream holds at least `k` = 1, 2, 4 or 8 further bytes respectively,
`ReadMajorFields` succeeds with major type `b >> 5` and the argument equal to
those `k` bytes read as a big-endian unsigned integer, and consumes exactly
`1 + k` bytes; with the five literal vectors of the tests. -/
theorem ReadMajorFields_extended (b : Byte) (r : List Byte) (k : Nat)
    (hk : (b.val &&& 0x1F = 24 ∧ k = 1) ∨ (b.val &&& 0x1F = 25 ∧ k = 2) ∨
      (b.val &&& 0x1F = 26 ∧ k = 4) ∨ (b.val &&& 0x1F = 27 ∧ k = 8))
    (hlen : k ≤ r.length) :
    ReadMajorFields (b :: r)
      = (.ok (b.val >>> 5, Nat.ofDigits 256 ((r.take k).reverse.map Fin.val)), r.drop k) ∧
    (b :: r).length - (r.drop k).length = 1 + k ∧
    1 + k ≤ 9 ∧
    ReadMajorFields [0x18, 0x64] = (.ok (UInt, 100), []) ∧
    ReadMajorFields [0x38, 0x63] = (.ok (NegInt, 99), []) ∧
    ReadMajorFields [0x58, 0x40] = (.ok (ByteString, 64), []) ∧
    ReadMajorFields [0x78, 0x20] = (.ok (TextString, 32), []) ∧
    ReadMajorFields [0x98, 0x19] = (.ok (Array, 25), []) := by
  refine ⟨?_, ?_, ?_, by rfl, by rfl, by rfl, by rfl, by rfl⟩
  · simp only [and_0x1F] at hk
    rw [ReadMajorFields_cons, shr_5, ← bigEndianUint_eq_ofDigits]
    rcases hk with ⟨h1, h2⟩ | ⟨h1, h2⟩ | ⟨h1, h2⟩ | ⟨h1, h2⟩ <;> subst h2 <;>
      simp [h1, readArgument_of_le _ _ r hlen]
  · simp only [List.length_cons, List.length_drop]
    omega
  · omega

theorem ReadMajorFields_extended_witness :
    (((0x59 : Byte).val &&& 0x1F = 24 ∧ 2 = 1) ∨ ((0x59 : Byte).val &&& 0x1F = 25 ∧ 2 = 2) ∨
      ((0x59 : Byte).val &&& 0x1F = 26 ∧ 2 = 4) ∨ ((0x59 : Byte).val &&& 0x1F = 27 ∧ 2 = 8)) ∧
    2 ≤ [(0x01 : Byte), 0x02, 0x03].length ∧
    ReadMajorFields ((0x59 : Byte) :: [0x01, 0x02, 0x03]) = (.ok (2, 258), [0x03]) :=
  ⟨by decide, by decide,
    (ReadMajorFields_extended 0x59 [0x01, 0x02, 0x03] 2 (by decide) (by decide)).1.trans
      (by rfl)⟩

/-- C7: `ReadMajorFields` fails with a truncation error on the empty stream,
and on every stream whose first byte has `ai` equal to 24, 25, 26 or 27 but
which holds fewer than 1, 2, 4 or 8 further bytes respectively; in particular
on `[0x18]` and on `[0x19, 0x03]`. -/
theorem ReadMajorFields_truncated (b : Byte) (r : List Byte) (k : Nat)
    (hk : (b.val &&& 0x1F = 24 ∧ k = 1) ∨ (b.val &&& 0x1F = 25 ∧ k = 2) ∨
      (b.val &&& 0x1F = 26 ∧ k = 4) ∨ (b.val &&& 0x1F = 27 ∧ k = 8))
    (hlen : r.length < k) :
    (∃ e, ReadMajorFields [] = (.error e, []) ∧ e.TruncatedInput = true) ∧
    (∃ e, ReadMajorFields (b :: r) = (.error e, []) ∧ e.TruncatedInput = true) ∧
    (∃ e, ReadMajorFields [0x18] = (.error e, []) ∧ e.TruncatedInput = true) ∧
    (∃ e, ReadMajorFields [0x19, 0x03] = (.error e, []) ∧ e.TruncatedInput = true) := by
  refine ⟨⟨Error.EOF, ReadMajorFields_nil, rfl⟩, ?_, ⟨Error.EOF, by rfl, rfl⟩,
    ⟨Error.ErrUnexpectedEOF, by rfl, rfl⟩⟩
  refine ⟨if r.length = 0 then Error.EOF else Error.ErrUnexpectedEOF, ?_, ?_⟩
  · simp only [and_0x1F] at hk
    rw [ReadMajorFields_cons]
    rcases hk with ⟨h1, h2⟩ | ⟨h1, h2⟩ | ⟨h1, h2⟩ | ⟨h1, h2⟩ <;> subst h2 <;>
      simp [h1, readArgument_of_lt _ _ r hlen]
  · split_ifs <;> rfl

theorem ReadMajorFields_truncated_witness :
    (((0x1A : Byte).val &&& 0x1F = 24 ∧ 4 = 1) ∨ ((0x1A : Byte).val &&& 0x1F = 25 ∧ 4 = 2) ∨
      ((0x1A : Byte).val &&& 0x1F = 26 ∧ 4 = 4) ∨ ((0x1A : Byte).val &&& 0x1F = 27 ∧ 4 = 8)) ∧
    [(0x01 : Byte), 0x02, 0x03].length < 4 ∧
    (∃ e, ReadMajorFields ((0x1A : Byte) :: [0x01, 0x02, 0x03]) = (.error e, []) ∧
      e.TruncatedInput = true) :=
  ⟨by decide, by decide,
    (ReadMajorFields_truncated 0x1A [0x01, 0x02, 0x03] 4 (by decide) (by decide)).2.1⟩

/-- C8: when the first byte `b` of the stream has `ai = b & 0x1F` in 28..31,
whatever bytes follow, `ReadMajorFields` fails with `UnsupportedEncoding` and
returns no header field. -/
theorem ReadMajorFields_unsupported (b : Byte) (rest : List Byte)
    (h : 28 ≤ b.val &&& 0x1F ∧ b.val &&& 0x1F ≤ 31) :
    ReadMajorFields (b :: rest) = (.error (Error.UnsupportedEncoding (b.val &&& 0x1F)), rest) := by
  rw [and_0x1F] at h ⊢
  rw [ReadMajorFields_cons]
  have h1 : ¬ b.val % 32 ≤ 23 := by omega
  have h2 : ¬ b.val % 32 = 24 := by omega
  have h3 : ¬ b.val % 32 = 25 := by omega
  have h4 : ¬ b.val % 32 = 26 := by omega
  have h5 : ¬ b.val % 32 = 27 := by omega
  simp [h1, h2, h3, h4, h5]

theorem ReadMajorFields_unsupported_witness :
    (28 ≤ (0x5F : Byte).val &&& 0x1F ∧ (0x5F : Byte).val &&& 0x1F ≤ 31) ∧
    ReadMajorFields ((0x5F : Byte) :: [1, 2, 3])
      = (.error (Error.UnsupportedEncoding ((0x5F : Byte).val &&& 0x1F)), [1, 2, 3]) :=
  ⟨by decide, ReadMajorFields_unsupported 0x5F [1, 2, 3] (by decide)⟩


/-! ## String codec: lemmas -/

theorem int64_of_lt (l : Nat) (h : l < 2 ^ 63) : int64 l = (l : Int) := by
  have h1 : l % 2 ^ 64 = l := Nat.mod_eq_of_lt (by omega)
  unfold int64
  rw [h1, if_pos h]

theorem ioCopyN_of_le (dst : List Byte) (r : Reader) (l : Nat) (h : l ≤ r.length) :
    ioCopyN dst r (l : Int) = ((dst ++ r.take l, (l : Int), none), r.drop l) := by
  simp [ioCopyN, h]

theorem ioCopyN_of_lt (dst : List Byte) (r : Reader) (l : Nat) (h : r.length < l) :
    ioCopyN dst r (l : Int) = ((dst ++ r, (r.length : Int), some Error.EOF), []) := by
  have h1 : min l r.length = r.length := by omega
  have h2 : ¬ r.length = l := by omega
  have h3 : r.take l = r := List.take_of_length_le (by omega)
  have h4 : r.drop l = [] := List.drop_of_length_le (by omega)
  simp [ioCopyN, h1, h2, h3, h4, h]

theorem ReadRawBytes_of_le (l : Nat) (r : Reader) (hl : l ≤ MaxInt32) (h : l ≤ r.length) :
    ReadRawBytes l r = ((r.take l, none), r.drop l) := by
  have hl1 : ¬ l > MaxInt32 := by omega
  unfold ReadRawBytes
  rw [if_neg hl1]
  split_ifs with h1
  · rw [ioReadFull_of_le r l h]
  · rw [int64_of_lt l (by unfold MaxInt32 at hl; omega), ioCopyN_of_le [] r l h]
    simp

theorem ReadRawBytes_too_large (l : Nat) (r : Reader) (hl : MaxInt32 < l) :
    ReadRawBytes l r = (([], some (Error.LengthTooLarge l)), r) := by
  unfold ReadRawBytes
  rw [if_pos hl]

theorem ReadLength_of_header (t : MajorType) (s : Reader) (n : Nat) (r : Reader)
    (h : ReadMajorFields s = (.ok (t, n), r)) : ReadLength t s = (.ok n, r) := by
  simp [ReadLength, h]

theorem WriteByteString_bytesBuffer (data w : List Byte) :
    WriteByteString bytesBuffer data w
      = (none, w ++ majorFieldBytes ByteString (uint64 data.length) ++ data) := by
  unfold WriteByteString WriteByteStringLen
  rw [WriteMajorFields_bytesBuffer]
  simp [bytesBuffer]

theorem WriteTextString_bytesBuffer (data w : List Byte) :
    WriteTextString bytesBuffer data w
      = (none, w ++ majorFieldBytes TextString (uint64 data.length) ++ data) := by
  unfold WriteTextString WriteTextStringLen
  rw [WriteMajorFields_bytesBuffer]
  simp [ioWriteString, bytesBuffer]

theorem uint64_of_le (n : Nat) (h : n ≤ MaxInt32) : uint64 n = n := by
  unfold MaxInt32 at h
  exact Nat.mod_eq_of_lt (by omega)

/-- Reading back one written byte string, with further bytes after it. -/
theorem ReadByteString_written (data rest : List Byte) (h : data.length ≤ MaxInt32) :
    ReadByteString (majorFieldBytes ByteString (uint64 data.length) ++ data ++ rest)
      = ((data, none), rest) := by
  have hlen := uint64_of_le _ h
  have hhdr := ReadMajorFields_majorFieldBytes ByteString data.length (data ++ rest)
    (by decide) (by unfold MaxInt32 at h; omega)
  unfold ReadByteString ReadByteStringLen
  rw [hlen, List.append_assoc, ReadLength_of_header _ _ _ _ hhdr]
  simp only
  rw [ReadRawBytes_of_le _ _ h (by simp)]
  simp

/-- Reading back one written text string, with further bytes after it. -/
theorem ReadTextString_written (data rest : List Byte) (h : data.length ≤ MaxInt32) :
    ReadTextString (majorFieldBytes TextString (uint64 data.length) ++ data ++ rest)
      = ((data, none), rest) := by
  have hlen := uint64_of_le _ h
  have hhdr := ReadMajorFields_majorFieldBytes TextString data.length (data ++ rest)
    (by decide) (by unfold MaxInt32 at h; omega)
  unfold ReadTextString ReadTextStringLen
  rw [hlen, List.append_assoc, ReadLength_of_header _ _ _ _ hhdr]
  simp only
  rw [ReadRawBytes_of_le _ _ h (by simp)]
  simp

/-! ## String codec: theorems -/

/-- C2: for every byte sequence `data` of at most 2^31-1 bytes,
`WriteByteString(data, w)` into an initially empty in-memory stream succeeds,
and `ReadByteString` on the bytes it wrote succeeds, returns `data` byte for
byte and leaves the stream empty. -/
theorem byte_string_round_trip (data : List Byte) (h : data.length ≤ 2 ^ 31 - 1) :
    (WriteByteString bytesBuffer data []).1 = none ∧
    ReadByteString (WriteByteString bytesBuffer data []).2 = ((data, none), []) := by
  rw [WriteByteString_bytesBuffer]
  refine ⟨rfl, ?_⟩
  have := ReadByteString_written data [] (by unfold MaxInt32; omega)
  simpa using this

theorem byte_string_round_trip_witness :
    [(0xDE : Byte), 0xAD, 0xBE, 0xEF].length ≤ 2 ^ 31 - 1 ∧
    (WriteByteString bytesBuffer [0xDE, 0xAD, 0xBE, 0xEF] []).1 = none ∧
    ReadByteString (WriteByteString bytesBuffer [0xDE, 0xAD, 0xBE, 0xEF] []).2
      = (([0xDE, 0xAD, 0xBE, 0xEF], none), []) :=
  ⟨by decide, byte_string_round_trip [0xDE, 0xAD, 0xBE, 0xEF] (by decide)⟩

/-- C9: for every length `l > 2^31-1` and every stream `r`, `ReadRawBytes(l, r)`
fails with `LengthTooLarge`, returns no buffer and leaves `r` untouched; so
`ReadByteString` and `ReadTextString` fail with that error on every stream `s`
that starts with a header of the matching major type and argument `l`,
whatever bytes `r` follow the header. -/
theorem length_guard (l : Nat) (r : Reader) (hl : 2 ^ 31 - 1 < l) :
    ReadRawBytes l r = (([], some (Error.LengthTooLarge l)), r) ∧
    (∀ s : Reader, ReadMajorFields s = (.ok (ByteString, l), r) →
      ReadByteString s = (([], some (Error.LengthTooLarge l)), r)) ∧
    (∀ s : Reader, ReadMajorFields s = (.ok (TextString, l), r) →
      ReadTextString s = (([], some (Error.LengthTooLarge l)), r)) := by
  have hg := ReadRawBytes_too_large l r (by unfold MaxInt32; omega)
  refine ⟨hg, ?_, ?_⟩
  · intro s hs
    unfold ReadByteString ReadByteStringLen
    rw [ReadLength_of_header _ _ _ _ hs]
    exact hg
  · intro s hs
    unfold ReadTextString ReadTextStringLen
    rw [ReadLength_of_header _ _ _ _ hs]
    simp only
    rw [hg]

theorem length_guard_witness :
    2 ^ 31 - 1 < 2 ^ 31 ∧
    ReadRawBytes (2 ^ 31) [1, 2] = (([], some (Error.LengthTooLarge (2 ^ 31))), [1, 2]) ∧
    ReadMajorFields [0x5A, 0x80, 0x00, 0x00, 0x00, 1, 2] = (.ok (ByteString, 2 ^ 31), [1, 2]) ∧
    ReadByteString [0x5A, 0x80, 0x00, 0x00, 0x00, 1, 2]
      = (([], some (Error.LengthTooLarge (2 ^ 31))), [1, 2]) ∧
    ReadMajorFields [0x7A, 0x80, 0x00, 0x00, 0x00, 1, 2] = (.ok (TextString, 2 ^ 31), [1, 2]) ∧
    ReadTextString [0x7A, 0x80, 0x00, 0x00, 0x00, 1, 2]
      = (([], some (Error.LengthTooLarge (2 ^ 31))), [1, 2]) :=
  ⟨by decide, (length_guard (2 ^ 31) [1, 2] (by decide)).1,
    by rfl, (length_guard (2 ^ 31) [1, 2] (by decide)).2.1 _ (by rfl),
    by rfl, (length_guard (2 ^ 31) [1, 2] (by decide)).2.2 _ (by rfl)⟩

/-- C10: for every `l <= 2^31-1` and every stream `r` that holds at least `l`
more bytes, `ReadRawBytes(l, r)` succeeds, the returned buffer has length `l`
and is the next `l` bytes of `r` in order, and `r` has advanced by exactly `l`
bytes; for `l = 0` this holds on any stream, the empty one included, and
nothing is consumed. -/
theorem ReadRawBytes_post (l : Nat) (r : Reader) (hl : l ≤ 2 ^ 31 - 1) (h : l ≤ r.length) :
    ReadRawBytes l r = ((r.take l, none), r.drop l) ∧
    (ReadRawBytes l r).1.1.length = l ∧
    (ReadRawBytes l r).1.1 ++ (ReadRawBytes l r).2 = r ∧
    (∀ s : Reader, ReadRawBytes 0 s = (([], none), s)) ∧
    ReadRawBytes 0 [] = (([], none), []) := by
  have h0 : ∀ s : Reader, ReadRawBytes 0 s = (([], none), s) := by
    intro s
    rw [ReadRawBytes_of_le 0 s (by decide) (Nat.zero_le _)]
    simp
  have hr := ReadRawBytes_of_le l r (by unfold MaxInt32; omega) h
  refine ⟨hr, ?_, ?_, h0, h0 []⟩
  · rw [hr]
    simp [h]
  · rw [hr]
    simp

theorem ReadRawBytes_post_witness :
    (2 : Nat) ≤ 2 ^ 31 - 1 ∧ 2 ≤ [(5 : Byte), 6, 7].length ∧
    ReadRawBytes 2 [5, 6, 7] = (([5, 6], none), [7]) :=
  ⟨by decide, by decide, (ReadRawBytes_post 2 [5, 6, 7] (by decide) (by decide)).1⟩


/-! ## String codec: further lemmas -/

theorem ReadRawBytes_fast_short (l : Nat) (r : Reader) (hl : l ≤ 1024 * 1024)
    (hr : r.length < l) :
    ReadRawBytes l r = ((r ++ List.replicate (l - r.length) 0,
      some (if r.length = 0 then Error.EOF else Error.ErrUnexpectedEOF)), []) := by
  have hl1 : ¬ l > MaxInt32 := by unfold MaxInt32; omega
  unfold ReadRawBytes
  rw [if_neg hl1, if_pos hl, ioReadFull_of_lt r l hr]

theorem ReadRawBytes_slow_short (l : Nat) (r : Reader) (hl : l ≤ MaxInt32)
    (hl2 : ¬ l ≤ 1024 * 1024) (hr : r.length < l) :
    ReadRawBytes l r = (([], some Error.EOF), []) := by
  have hl1 : ¬ l > MaxInt32 := by omega
  unfold ReadRawBytes
  rw [if_neg hl1, if_neg hl2, int64_of_lt l (by unfold MaxInt32 at hl; omega),
    ioCopyN_of_lt [] r l hr]

theorem ReadRawBytes_ok_iff (l : Nat) (r : Reader) :
    (ReadRawBytes l r).1.2 = none ↔ l ≤ MaxInt32 ∧ l ≤ r.length := by
  by_cases hl : l ≤ MaxInt32
  · by_cases hr : l ≤ r.length
    · simp [ReadRawBytes_of_le l r hl hr, hl, hr]
    · by_cases hf : l ≤ 1024 * 1024
      · rw [ReadRawBytes_fast_short l r hf (by omega)]
        simp [hr]
      · rw [ReadRawBytes_slow_short l r hl hf (by omega)]
        simp [hr]
  · rw [ReadRawBytes_too_large l r (by omega)]
    simp [hl]

/-- A text-string header announcing `2^31` bytes, in its 4-byte form. -/
theorem ReadMajorFields_text_2_31 (rest : List Byte) :
    ReadMajorFields ([0x7A, 0x80, 0x00, 0x00, 0x00] ++ rest) = (.ok (TextString, 2 ^ 31), rest) := by
  have h := ReadMajorFields_header 3 26 4 (2 ^ 31) rest (by decide) (by decide) (by decide)
  exact h

/-! ## String codec: further theorems -/

/-- C11: for every `l` with `0 < l <= 2^31-1` and every stream `r` that holds
fewer than `l` more bytes, `ReadRawBytes(l, r)` returns a truncation error, on
the path of `l <= 2^20` (`io.EOF` when nothing was left, `io.ErrUnexpectedEOF`
otherwise) and on the path of `l > 2^20` (`io.EOF`) alike; and `ReadRawBytes`
succeeds exactly when `l <= 2^31-1` and the stream holds at least `l` bytes. -/
theorem payload_truncation (l : Nat) (r : Reader) (h0 : 0 < l) (hl : l ≤ 2 ^ 31 - 1)
    (hr : r.length < l) :
    (∃ e, (ReadRawBytes l r).1.2 = some e ∧ e.TruncatedInput = true) ∧
    (l ≤ 2 ^ 20 → (ReadRawBytes l r).1.2
      = some (if r.length = 0 then Error.EOF else Error.ErrUnexpectedEOF)) ∧
    (2 ^ 20 < l → (ReadRawBytes l r).1.2 = some Error.EOF) ∧
    (∀ (l1 : Nat) (r1 : Reader),
      (ReadRawBytes l1 r1).1.2 = none ↔ l1 ≤ 2 ^ 31 - 1 ∧ l1 ≤ r1.length) := by
  have hM : l ≤ MaxInt32 := by unfold MaxInt32; omega
  have hfast : l ≤ 2 ^ 20 → (ReadRawBytes l r).1.2
      = some (if r.length = 0 then Error.EOF else Error.ErrUnexpectedEOF) := by
    intro hf
    rw [ReadRawBytes_fast_short l r (by omega) hr]
  have hslow : 2 ^ 20 < l → (ReadRawBytes l r).1.2 = some Error.EOF := by
    intro hs
    rw [ReadRawBytes_slow_short l r hM (by omega) hr]
  refine ⟨?_, hfast, hslow, ?_⟩
  · by_cases hf : l ≤ 2 ^ 20
    · refine ⟨_, hfast hf, ?_⟩
      split_ifs <;> rfl
    · exact ⟨_, hslow (by omega), rfl⟩
  · intro l1 r1
    have := ReadRawBytes_ok_iff l1 r1
    unfold MaxInt32 at this
    simpa using this

theorem payload_truncation_witness :
    (0 : Nat) < 2 ^ 20 + 1 ∧ 2 ^ 20 + 1 ≤ 2 ^ 31 - 1 ∧ [(1 : Byte), 2].length < 2 ^ 20 + 1 ∧
    (∃ e, (ReadRawBytes (2 ^ 20 + 1) [1, 2]).1.2 = some e ∧ e.TruncatedInput = true) :=
  ⟨by decide, by decide, by decide,
    (payload_truncation (2 ^ 20 + 1) [1, 2] (by decide) (by decide) (by decide)).1⟩

/-- A text-string header announcing `2^31` bytes is refused, whatever follows. -/
theorem ReadTextString_text_2_31 (rest : List Byte) :
    ReadTextString ([0x7A, 0x80, 0x00, 0x00, 0x00] ++ rest)
      = (([], some (Error.LengthTooLarge (2 ^ 31))), rest) := by
  unfold ReadTextString ReadTextStringLen
  rw [ReadLength_of_header _ _ _ _ (ReadMajorFields_text_2_31 rest)]
  simp only
  rw [ReadRawBytes_too_large _ _ (by unfold MaxInt32; omega)]

/-- C12, as stated, fails: a text-string header with argument `N = 2^31`
followed by `N` bytes is not read back; `ReadTextString` returns
`LengthTooLarge` and no text. -/
theorem text_string_any_length_counterexample :
    ReadMajorFields ([0x7A, 0x80, 0x00, 0x00, 0x00] ++ List.replicate (2 ^ 31) (0 : Byte))
      = (.ok (TextString, 2 ^ 31), List.replicate (2 ^ 31) (0 : Byte)) ∧
    (List.replicate (2 ^ 31) (0 : Byte)).length = 2 ^ 31 ∧
    ReadTextString ([0x7A, 0x80, 0x00, 0x00, 0x00] ++ List.replicate (2 ^ 31) (0 : Byte))
      = (([], some (Error.LengthTooLarge (2 ^ 31))), List.replicate (2 ^ 31) (0 : Byte)) :=
  ⟨ReadMajorFields_text_2_31 _, List.length_replicate _ _, ReadTextString_text_2_31 _⟩

/-- C12, amended: for every string `s` of at most 2^31-1 bytes, whatever its
bytes (no UTF-8 validation), `ReadTextString` on the bytes that
`WriteTextString(s, w)` wrote succeeds and returns the bytes of `s`; and for
every `N <= 2^31-1`, `ReadTextString` on a stream that starts with a header of
major type 3 and argument `N` followed by `N` bytes `payload` succeeds and
returns exactly `payload`, leaving what follows unread. -/
theorem text_string_round_trip (s : List Byte) (hs : s.length ≤ 2 ^ 31 - 1) :
    (WriteTextString bytesBuffer s []).1 = none ∧
    ReadTextString (WriteTextString bytesBuffer s []).2 = ((s, none), []) ∧
    (∀ (stream payload rest : List Byte) (N : Nat),
      ReadMajorFields stream = (.ok (TextString, N), payload ++ rest) →
      payload.length = N → N ≤ 2 ^ 31 - 1 →
      ReadTextString stream = ((payload, none), rest)) := by
  rw [WriteTextString_bytesBuffer]
  refine ⟨rfl, ?_, ?_⟩
  · have := ReadTextString_written s [] (by unfold MaxInt32; omega)
    simpa using this
  · intro stream payload rest N hh hlen hN
    unfold ReadTextString ReadTextStringLen
    rw [ReadLength_of_header _ _ _ _ hh]
    simp only
    rw [ReadRawBytes_of_le N (payload ++ rest) (by unfold MaxInt32; omega) (by simp; omega)]
    simp [← hlen]

theorem text_string_round_trip_witness :
    [(0xFF : Byte), 0xFE, 0xC0].length ≤ 2 ^ 31 - 1 ∧
    (WriteTextString bytesBuffer [0xFF, 0xFE, 0xC0] []).1 = none ∧
    ReadTextString (WriteTextString bytesBuffer [0xFF, 0xFE, 0xC0] []).2
      = (([0xFF, 0xFE, 0xC0], none), []) ∧
    ReadTextString [0x78, 0x02, 0xC3, 0x28, 0x09] = (([0xC3, 0x28], none), [0x09]) :=
  ⟨by decide, (text_string_round_trip [0xFF, 0xFE, 0xC0] (by decide)).1,
    (text_string_round_trip [0xFF, 0xFE, 0xC0] (by decide)).2.1,
    (text_string_round_trip [0xFF, 0xFE, 0xC0] (by decide)).2.2
      [0x78, 0x02, 0xC3, 0x28, 0x09] [0xC3, 0x28] [0x09] 2 (by rfl) (by rfl) (by decide)⟩


theorem uint64_of_lt (n : Nat) (h : n < 2 ^ 63) : uint64 n = n :=
  Nat.mod_eq_of_lt (by omega)

theorem majorFieldBytes_length_mem (m a : Nat) :
    (majorFieldBytes m a).length ∈ [1, 2, 3, 5, 9] := by
  rw [majorFieldBytes_length]
  split_ifs <;> simp

/-- C13: into a sink that accepts every byte, `WriteByteString(data, w)` succeeds
and appends exactly the bytes of `WriteMajorFields(ByteString, len(data))`
followed by `data`; `WriteTextString(s, w)` appends exactly the bytes of
`WriteMajorFields(TextString, len(s))` followed by the bytes of `s`; the number
of bytes written is the header width, one of 1, 2, 3, 5, 9, plus the payload
length. (`len` is a Go `int`, hence below 2^63.) -/
theorem written_string_wire_format (data w : List Byte) (h : data.length < 2 ^ 63) :
    (WriteByteString bytesBuffer data w).1 = none ∧
    (WriteByteString bytesBuffer data w).2
      = w ++ (WriteMajorFields bytesBuffer ByteString data.length []).2 ++ data ∧
    (WriteTextString bytesBuffer data w).1 = none ∧
    (WriteTextString bytesBuffer data w).2
      = w ++ (WriteMajorFields bytesBuffer TextString data.length []).2 ++ data ∧
    (∃ hw ∈ [1, 2, 3, 5, 9],
      (WriteMajorFields bytesBuffer ByteString data.length []).2.length = hw ∧
      (WriteMajorFields bytesBuffer TextString data.length []).2.length = hw ∧
      (WriteByteString bytesBuffer data w).2.length = w.length + (hw + data.length) ∧
      (WriteTextString bytesBuffer data w).2.length = w.length + (hw + data.length)) := by
  rw [WriteByteString_bytesBuffer, WriteTextString_bytesBuffer, WriteMajorFields_bytesBuffer,
    WriteMajorFields_bytesBuffer, uint64_of_lt _ h]
  refine ⟨rfl, by simp, rfl, by simp, (majorFieldBytes ByteString data.length).length,
    majorFieldBytes_length_mem _ _, by simp, ?_, ?_, ?_⟩
  · simp [majorFieldBytes_length]
  · simp [Nat.add_assoc]
  · simp [majorFieldBytes_length, Nat.add_assoc]

theorem written_string_wire_format_witness :
    [(7 : Byte), 8, 9].length < 2 ^ 63 ∧
    (WriteByteString bytesBuffer [7, 8, 9] [1]).2 = [1, 0x43, 7, 8, 9] ∧
    (WriteTextString bytesBuffer [7, 8, 9] [1]).2 = [1, 0x63, 7, 8, 9] :=
  ⟨by decide,
    (written_string_wire_format [7, 8, 9] [1] (by decide)).2.1.trans (by rfl),
    (written_string_wire_format [7, 8, 9] [1] (by decide)).2.2.2.1.trans (by rfl)⟩

/-- C14: when the leading header of the stream decodes to a major type `m`
other than `ByteString` (2), `ReadByteString` fails with
`UnexpectedMajorType`; when it decodes to one other than `TextString` (3),
`ReadTextString` fails with `UnexpectedMajorType`. No payload is returned, and
the reader is left right after the header: no payload byte is read. -/
theorem string_read_major_type_check (stream rest : Reader) (m n : Nat)
    (h : ReadMajorFields stream = (.ok (m, n), rest)) :
    (m ≠ ByteString →
      ReadByteString stream = (([], some (Error.UnexpectedMajorType m ByteString)), rest)) ∧
    (m ≠ TextString →
      ReadTextString stream = (([], some (Error.UnexpectedMajorType m TextString)), rest)) := by
  constructor
  · intro hm
    simp [ReadByteString, ReadByteStringLen, ReadLength, h, hm]
  · intro hm
    simp [ReadTextString, ReadTextStringLen, ReadLength, h, hm]

theorem string_read_major_type_check_witness :
    ReadMajorFields [0x82, 1, 2] = (.ok (4, 2), [1, 2]) ∧
    ReadByteString [0x82, 1, 2] = (([], some (Error.UnexpectedMajorType 4 ByteString)), [1, 2]) ∧
    ReadTextString [0x82, 1, 2] = (([], some (Error.UnexpectedMajorType 4 TextString)), [1, 2]) :=
  ⟨by rfl,
    (string_read_major_type_check [0x82, 1, 2] [1, 2] 4 2 (by rfl)).1 (by decide),
    (string_read_major_type_check [0x82, 1, 2] [1, 2] 4 2 (by rfl)).2 (by decide)⟩


/-- C15: when the header write succeeds, leaving the sink in state `wb`, but the
payload write `w.Write(data)` reports a count different from `len(data)`, with
or without an error of its own, `WriteByteString` returns an error: the sink's
error if it gave one, `IncompleteWrite` otherwise. Likewise `WriteTextString`,
whose payload write is `io.WriteString(w, data)`, after a header write that
left the sink in state `wt`. In both cases the sink is left as that one payload
write on the state after the header left it: the header is not undone and the
payload is not written again. The two functions are taken separately: a sink
need not meet the conditions for both. -/
theorem incomplete_payload_write {σ : Type} (W : Writer σ) (data : List Byte) (w : σ) :
    (∀ wb : σ, WriteByteStringLen W (uint64 data.length) w = (none, wb) →
      (W.Write wb data).1.1 ≠ (data.length : Int) →
      WriteByteString W data w
        = (some ((W.Write wb data).1.2.getD
            (Error.IncompleteWrite (W.Write wb data).1.1 data.length)), (W.Write wb data).2)) ∧
    (∀ wt : σ, WriteTextStringLen W (uint64 data.length) w = (none, wt) →
      (ioWriteString W wt data).1.1 ≠ (data.length : Int) →
      WriteTextString W data w
        = (some ((ioWriteString W wt data).1.2.getD
            (Error.IncompleteWrite (ioWriteString W wt data).1.1 data.length)),
          (ioWriteString W wt data).2)) := by
  constructor
  · intro wb hb hnb
    unfold WriteByteString
    rw [hb]
    simp only
    rcases hw : W.Write wb data with ⟨⟨n, _ | e⟩, w2⟩
    · rw [hw] at hnb
      simp only at hnb
      simp [hnb]
    · simp
  · intro wt ht hnt
    unfold WriteTextString
    rw [ht]
    simp only
    rcases hw : ioWriteString W wt data with ⟨⟨n, _ | e⟩, w2⟩
    · rw [hw] at hnt
      simp only at hnt
      simp [hnt]
    · simp

theorem incomplete_payload_write_witness :
    WriteByteStringLen (recording (limitedSink 3)) (uint64 [(1 : Byte), 2, 3, 4].length) ([], [])
      = (none, ([0x44], [[0x44]])) ∧
    ((recording (limitedSink 3)).Write ([0x44], [[0x44]]) [1, 2, 3, 4]).1.1
      ≠ ([(1 : Byte), 2, 3, 4].length : Int) ∧
    WriteByteString (recording (limitedSink 3)) [1, 2, 3, 4] ([], [])
      = (some (Error.IncompleteWrite 2 4), ([0x44, 1, 2], [[0x44], [1, 2, 3, 4]])) ∧
    WriteTextStringLen (recording (shortStringSink 2)) (uint64 [(1 : Byte), 2, 3, 4].length)
      ([], []) = (none, ([0x64], [[0x64]])) ∧
    (ioWriteString (recording (shortStringSink 2)) ([0x64], [[0x64]]) [1, 2, 3, 4]).1.1
      ≠ ([(1 : Byte), 2, 3, 4].length : Int) ∧
    WriteTextString (recording (shortStringSink 2)) [1, 2, 3, 4] ([], [])
      = (some (Error.IncompleteWrite 2 4), ([0x64, 1, 2], [[0x64], [1, 2, 3, 4]])) :=
  ⟨by rfl, by decide,
    ((incomplete_payload_write (recording (limitedSink 3)) [1, 2, 3, 4] ([], [])).1
      ([0x44], [[0x44]]) (by rfl) (by decide)).trans (by rfl),
    by rfl, by decide,
    ((incomplete_payload_write (recording (shortStringSink 2)) [1, 2, 3, 4] ([], [])).2
      ([0x64], [[0x64]]) (by rfl) (by decide)).trans (by rfl)⟩

/-- C16 fails on the code: on a stream holding 2 of the 3 bytes asked for,
`ReadRawBytes` returns the error together with the 3-byte buffer that holds the
2 bytes read, and `ReadByteString` passes that buffer on; the path through
`io.CopyN` and `ReadTextString` return no data with the error. -/
theorem partial_buffer_on_error :
    ReadRawBytes 3 [1, 2] = (([1, 2, 0], some Error.ErrUnexpectedEOF), []) ∧
    ReadByteString [0x43, 1, 2] = (([1, 2, 0], some Error.ErrUnexpectedEOF), []) ∧
    ReadTextString [0x63, 1, 2] = (([], some Error.ErrUnexpectedEOF), []) ∧
    readGrowable 3 [1, 2] = (([], some Error.EOF), []) := by
  refine ⟨by rfl, by rfl, by rfl, by rfl⟩


/-! ## The two allocation paths: lemmas and theorem -/

theorem readPresized_of_le (l : Nat) (r : Reader) (h : l ≤ r.length) :
    readPresized l r = ((r.take l, none), r.drop l) := by
  unfold readPresized
  rw [ioReadFull_of_le r l h]

theorem readPresized_of_lt (l : Nat) (r : Reader) (h : r.length < l) :
    readPresized l r = ((r ++ List.replicate (l - r.length) 0,
      some (if r.length = 0 then Error.EOF else Error.ErrUnexpectedEOF)), []) := by
  unfold readPresized
  rw [ioReadFull_of_lt r l h]

theorem readGrowable_of_le (l : Nat) (r : Reader) (hl : l ≤ MaxInt32) (h : l ≤ r.length) :
    readGrowable l r = ((r.take l, none), r.drop l) := by
  unfold readGrowable
  rw [int64_of_lt l (by unfold MaxInt32 at hl; omega), ioCopyN_of_le [] r l h]
  simp

theorem readGrowable_of_lt (l : Nat) (r : Reader) (hl : l ≤ MaxInt32) (h : r.length < l) :
    readGrowable l r = (([], some Error.EOF), []) := by
  unfold readGrowable
  rw [int64_of_lt l (by unfold MaxInt32 at hl; omega), ioCopyN_of_lt [] r l h]

theorem ReadRawBytes_eq_paths (l : Nat) (r : Reader) (hl : l ≤ MaxInt32) :
    ReadRawBytes l r = if l ≤ 1024 * 1024 then readPresized l r else readGrowable l r := by
  have hl1 : ¬ l > MaxInt32 := by omega
  unfold ReadRawBytes readPresized readGrowable
  rw [if_neg hl1]

theorem ReadRawBytesAt_threshold (l : Nat) (r : Reader) :
    ReadRawBytesAt (1024 * 1024) l r = ReadRawBytes l r := by
  unfold ReadRawBytesAt ReadRawBytes readPresized readGrowable
  rfl

theorem ReadRawBytesAt_of_le (t l : Nat) (r : Reader) (hl : l ≤ MaxInt32) (h : l ≤ r.length) :
    ReadRawBytesAt t l r = ((r.take l, none), r.drop l) := by
  have hl1 : ¬ l > MaxInt32 := by omega
  unfold ReadRawBytesAt
  rw [if_neg hl1, readPresized_of_le l r h, readGrowable_of_le l r hl h]
  simp

theorem ReadRawBytesAt_ok_iff (t l : Nat) (r : Reader) :
    (ReadRawBytesAt t l r).1.2 = none ↔ l ≤ MaxInt32 ∧ l ≤ r.length := by
  by_cases hl : l ≤ MaxInt32
  · by_cases hr : l ≤ r.length
    · simp [ReadRawBytesAt_of_le t l r hl hr, hl, hr]
    · have hl1 : ¬ l > MaxInt32 := by omega
      unfold ReadRawBytesAt
      rw [if_neg hl1, readPresized_of_lt l r (by omega), readGrowable_of_lt l r hl (by omega)]
      split_ifs <;> simp [hr]
  · have hl1 : l > MaxInt32 := by omega
    unfold ReadRawBytesAt
    rw [if_pos hl1]
    simp [hl]

/-- C17: for every `l <= 2^31-1` and every stream `r`, the branch of
`ReadRawBytes` that fills a pre-sized buffer with one full read and the branch
that copies `l` bytes through a growable buffer succeed on the same streams,
return the same bytes when they succeed, and leave `r` at the same position;
`ReadRawBytes` is the first branch up to `1024*1024` and the second above, and
with any other threshold `t` in place of `1024*1024` it succeeds on the same
inputs with the same result. -/
theorem allocation_paths_equivalent (l : Nat) (r : Reader) (hl : l ≤ 2 ^ 31 - 1) :
    ((readPresized l r).1.2 = none ↔ (readGrowable l r).1.2 = none) ∧
    ((readPresized l r).1.2 = none → (readPresized l r).1.1 = (readGrowable l r).1.1) ∧
    (readPresized l r).2 = (readGrowable l r).2 ∧
    ReadRawBytes l r = (if l ≤ 1024 * 1024 then readPresized l r else readGrowable l r) ∧
    ReadRawBytesAt (1024 * 1024) l r = ReadRawBytes l r ∧
    (∀ t : Nat,
      ((ReadRawBytesAt t l r).1.2 = none ↔ (ReadRawBytes l r).1.2 = none) ∧
      ((ReadRawBytes l r).1.2 = none → ReadRawBytesAt t l r = ReadRawBytes l r)) := by
  have hM : l ≤ MaxInt32 := by unfold MaxInt32; omega
  have hpaths : ((readPresized l r).1.2 = none ↔ (readGrowable l r).1.2 = none) ∧
      ((readPresized l r).1.2 = none → (readPresized l r).1.1 = (readGrowable l r).1.1) ∧
      (readPresized l r).2 = (readGrowable l r).2 := by
    by_cases hr : l ≤ r.length
    · rw [readPresized_of_le l r hr, readGrowable_of_le l r hM hr]
      simp
    · rw [readPresized_of_lt l r (by omega), readGrowable_of_lt l r hM (by omega)]
      simp
  refine ⟨hpaths.1, hpaths.2.1, hpaths.2.2, ReadRawBytes_eq_paths l r hM,
    ReadRawBytesAt_threshold l r, ?_⟩
  intro t
  constructor
  · rw [ReadRawBytesAt_ok_iff, ReadRawBytes_ok_iff]
  · intro hok
    obtain ⟨_, hr⟩ := (ReadRawBytes_ok_iff l r).mp hok
    rw [ReadRawBytesAt_of_le t l r hM hr, ReadRawBytes_of_le l r hM hr]

theorem allocation_paths_equivalent_witness :
    (2 : Nat) ≤ 2 ^ 31 - 1 ∧
    readPresized 2 [5, 6, 7] = (([5, 6], none), [7]) ∧
    readGrowable 2 [5, 6, 7] = (([5, 6], none), [7]) ∧
    (readPresized 2 [5, 6, 7]).2 = (readGrowable 2 [5, 6, 7]).2 ∧
    ReadRawBytesAt 1 2 [5, 6, 7] = ReadRawBytes 2 [5, 6, 7] :=
  ⟨by decide, by rfl, by rfl,
    (allocation_paths_equivalent 2 [5, 6, 7] (by decide)).2.2.1,
    ((allocation_paths_equivalent 2 [5, 6, 7] (by decide)).2.2.2.2.2 1).2 (by rfl)⟩


/-! ## Sequences of byte strings, non-minimal headers, failing headers -/

theorem writeByteStrings_read_back (ds : List (List Byte))
    (h : ∀ d ∈ ds, d.length ≤ MaxInt32) (w : List Byte) :
    (writeByteStrings bytesBuffer ds w).1 = none ∧
    ∃ out, (writeByteStrings bytesBuffer ds w).2 = w ++ out ∧
      ∀ rest, readByteStrings ds.length (out ++ rest)
        = (ds.map (fun d => (d, none)), rest) := by
  induction ds generalizing w with
  | nil => exact ⟨rfl, [], by simp [writeByteStrings], fun rest => by simp [readByteStrings]⟩
  | cons d ds ih =>
    have hd : d.length ≤ MaxInt32 := h d (List.mem_cons_self _ _)
    obtain ⟨h1, out, h2, h3⟩ :=
      ih (fun x hx => h x (List.mem_cons_of_mem _ hx))
        (w ++ majorFieldBytes ByteString (uint64 d.length) ++ d)
    have hw : writeByteStrings bytesBuffer (d :: ds) w
        = writeByteStrings bytesBuffer ds
            (w ++ majorFieldBytes ByteString (uint64 d.length) ++ d) := by
      rw [writeByteStrings, WriteByteString_bytesBuffer]
    rw [hw]
    refine ⟨h1, majorFieldBytes ByteString (uint64 d.length) ++ d ++ out, ?_, ?_⟩
    · rw [h2]
      simp [List.append_assoc]
    · intro rest
      have hr := ReadByteString_written d (out ++ rest) hd
      rw [List.length_cons, readByteStrings, List.append_assoc, hr]
      simp only
      rw [h3 rest]
      simp

/-- C18: for every finite list `ds` of byte sequences, each of at most 2^31-1
bytes, writing them in order with `WriteByteString` into one initially empty
in-memory stream succeeds, and calling `ReadByteString` as many times on that
stream returns them in the same order, every call without error, and leaves
the stream empty. -/
theorem byte_strings_self_delimiting (ds : List (List Byte))
    (h : ∀ d ∈ ds, d.length ≤ 2 ^ 31 - 1) :
    (writeByteStrings bytesBuffer ds []).1 = none ∧
    readByteStrings ds.length (writeByteStrings bytesBuffer ds []).2
      = (ds.map (fun d => (d, none)), []) := by
  obtain ⟨h1, out, h2, h3⟩ :=
    writeByteStrings_read_back ds (fun d hd => by have := h d hd; unfold MaxInt32; omega) []
  refine ⟨h1, ?_⟩
  rw [h2]
  simpa using h3 []

theorem byte_strings_self_delimiting_witness :
    (∀ d ∈ [[(1 : Byte), 2], [], [3]], d.length ≤ 2 ^ 31 - 1) ∧
    (writeByteStrings bytesBuffer [[1, 2], [], [3]] []).2 = [0x42, 1, 2, 0x40, 0x41, 3] ∧
    readByteStrings 3 (writeByteStrings bytesBuffer [[1, 2], [], [3]] []).2
      = ([([1, 2], none), ([], none), ([3], none)], []) :=
  ⟨by decide, by rfl, (byte_strings_self_delimiting [[1, 2], [], [3]] (by decide)).2⟩

/-- C19: `ReadMajorFields` accepts non-minimal encodings: `[0x18, 0x05]`, a
1-byte extension for the argument 5, decodes to `(UInt, 5)`, and
`WriteMajorFields(UInt, 5)` emits `[0x05]`, which differs from it and is
shorter; so decoding and encoding again is not the identity on bytes. -/
theorem decode_encode_not_identity :
    ReadMajorFields [0x18, 0x05] = (.ok (UInt, 5), []) ∧
    (WriteMajorFields bytesBuffer UInt 5 []).1 = none ∧
    (WriteMajorFields bytesBuffer UInt 5 []).2 = [0x05] ∧
    (WriteMajorFields bytesBuffer UInt 5 []).2 ≠ [0x18, 0x05] ∧
    (WriteMajorFields bytesBuffer UInt 5 []).2.length < [(0x18 : Byte), 0x05].length ∧
    (∃ (bs : List Byte) (m a : Nat), ReadMajorFields bs = (.ok (m, a), []) ∧
      (WriteMajorFields bytesBuffer m a []).2 ≠ bs ∧
      (WriteMajorFields bytesBuffer m a []).2.length < bs.length) := by
  refine ⟨by rfl, by rfl, by rfl, by decide, by decide, [0x18, 0x05], 0, 5, by rfl, by decide,
    by decide⟩

/-- C20: when writing the length header fails, `WriteByteString` returns the
header's error and leaves the sink in the state the failed header write left
it in: no write is made for the payload. Likewise `WriteTextString`. The two
functions are taken separately: a sink need not fail on both headers. -/
theorem header_failure_stops_write {σ : Type} (W : Writer σ) (data : List Byte) (w : σ) :
    (∀ (eb : Error) (wb : σ),
      WriteByteStringLen W (uint64 data.length) w = (some eb, wb) →
      WriteByteString W data w = (some eb, wb)) ∧
    (∀ (et : Error) (wt : σ),
      WriteTextStringLen W (uint64 data.length) w = (some et, wt) →
      WriteTextString W data w = (some et, wt)) := by
  constructor
  · intro eb wb hb
    unfold WriteByteString
    rw [hb]
  · intro et wt ht
    unfold WriteTextString
    rw [ht]

theorem header_failure_stops_write_witness :
    WriteByteStringLen (recording (failingSink 0)) (uint64 [(1 : Byte), 2, 3].length) ([], [])
      = (some (Error.Sink 1), ([], [[0x43]])) ∧
    WriteByteString (recording (failingSink 0)) [1, 2, 3] ([], [])
      = (some (Error.Sink 1), ([], [[0x43]])) ∧
    WriteTextStringLen (recording noTextHeaderSink) (uint64 [(1 : Byte), 2, 3].length) ([], [])
      = (some (Error.Sink 2), ([], [[0x63]])) ∧
    WriteTextString (recording noTextHeaderSink) [1, 2, 3] ([], [])
      = (some (Error.Sink 2), ([], [[0x63]])) ∧
    WriteByteString (recording noTextHeaderSink) [1, 2, 3] ([], [])
      = (none, ([0x43, 1, 2, 3], [[0x43], [1, 2, 3]])) :=
  ⟨by rfl,
    (header_failure_stops_write (recording (failingSink 0)) [1, 2, 3] ([], [])).1
      (Error.Sink 1) ([], [[0x43]]) (by rfl),
    by rfl,
    (header_failure_stops_write (recording noTextHeaderSink) [1, 2, 3] ([], [])).2
      (Error.Sink 2) ([], [[0x63]]) (by rfl),
    by rfl⟩

end Cboring
